import Mathlib

/-!
Shallow embedding of the lupito-sanity-studio content-generation plugin and
secrets loader, with proofs about the behaviour its specification describes.

Sources embedded:
- `src/plugins/generate-with-claude/hooks/useGenerateContent.ts`
  (`generate`, `generateSlug`)
- `src/plugins/generate-with-claude/utils/contentFormatter.ts`
  (`formatContentForSanity` with its inner `formatBlockContent` and
  `parseInlineFormatting`, and `addImagePlaceholders`)
- `src/lib/secrets-manager.ts` (`formatSecretName`, `getSecret`)

JavaScript semantics are made explicit: truthiness of strings/arrays/options,
`Array.splice` insertion, `String.split` with a capturing group, first-match
regex scanning, and `Set`-based de-duplication preserving insertion order.
-/

namespace Lupito

/-- The fixed supported language set (`SUPPORTED_LANGUAGES` in `types.ts`). -/
inductive Lang
  | ro | en | pl | hu | cs
deriving DecidableEq, Repr

/-- A rich-text span object with a text and an optional marks field; an
absent marks field is represented by the empty list. -/
structure Span where
  text : String
  marks : List String := []
deriving DecidableEq, Repr

/-- A Sanity portable-text block: either a text block with a style and child
spans, or an image placeholder object as pushed by `addImagePlaceholders`. -/
inductive PortableBlock
  | block (style : String) (children : List Span)
  | imagePlaceholder (alt : String) (caption : String)
deriving DecidableEq, Repr

/-- JS `splice` with deletion count 0: insert `x` at index `pos`, clamping
to the array length when `pos` exceeds it. -/
def spliceInsert (pos : Nat) (x : α) (l : List α) : List α :=
  l.take pos ++ x :: l.drop pos

/-- The placeholder object pushed for reverse-iteration index `idx` when
`count` placeholders were requested: numbered `count - idx`. -/
def placeholderFor (count idx : Nat) : PortableBlock :=
  .imagePlaceholder
    ("[Placeholder " ++ toString (count - idx) ++ ": Add relevant image here]")
    "Replace with appropriate image"

/-- `addImagePlaceholders(blocks, count)` from `contentFormatter.ts`:
returns `blocks` unchanged when it has fewer than 3 entries; otherwise
computes `spacing = ⌊totalBlocks / (count+1)⌋`, target positions
`spacing*1 … spacing*count`, and splices numbered placeholder objects at
those positions in reverse order (`positions.reverse().forEach`), numbering
each insertion `count - index`. -/
def addImagePlaceholders (blocks : List PortableBlock) (count : Nat := 2) :
    List PortableBlock :=
  let totalBlocks := blocks.length
  if totalBlocks < 3 then blocks
  else
    let spacing := totalBlocks / (count + 1)
    let positions := (List.range' 1 count).map (fun i => spacing * i)
    (positions.reverse.enum).foldl
      (fun newBlocks ip => spliceInsert ip.2 (placeholderFor count ip.1) newBlocks)
      blocks

/-! ### JS string helpers for `generateSlug` -/

/-- JS regex `\w`: ASCII letters, digits and underscore. -/
def isJsWordChar (c : Char) : Bool :=
  (('a' ≤ c ∧ c ≤ 'z') ∨ ('A' ≤ c ∧ c ≤ 'Z') ∨ ('0' ≤ c ∧ c ≤ '9') ∨ c = '_')

/-- JS regex `\s` (the whitespace characters that occur in practice here). -/
def isJsSpace (c : Char) : Bool :=
  c = ' ' ∨ c = '\t' ∨ c = '\n' ∨ c = '\r' ∨ c = '\x0b' ∨ c = '\x0c'

/-- JS `String.toLowerCase` restricted to ASCII and Latin-1 letters (the
only characters this studio's titles contain). -/
def jsToLowerChar (c : Char) : Char :=
  if 'A' ≤ c ∧ c ≤ 'Z' then Char.ofNat (c.toNat + 32)
  else if 'À' ≤ c ∧ c ≤ 'Þ' ∧ c ≠ '×' then Char.ofNat (c.toNat + 32)
  else c

/-- Replace every maximal run of characters satisfying `p` by the single
character `r` (JS `replace(/p+/g, r)` for a character class `p`). The flag
records whether the previous character was part of a run. -/
def collapseRuns (p : Char → Bool) (r : Char) : List Char → Bool → List Char
  | [], _ => []
  | c :: rest, prevInRun =>
    if p c then
      if prevInRun then collapseRuns p r rest true
      else r :: collapseRuns p r rest true
    else c :: collapseRuns p r rest false

/-- JS `String.trim`: strip leading and trailing whitespace. -/
def jsTrim (cs : List Char) : List Char :=
  ((cs.dropWhile isJsSpace).reverse.dropWhile isJsSpace).reverse

/-- `generateSlug` from `useGenerateContent.ts`: lower-case the title, drop
every character that is not a word character, whitespace or a hyphen,
replace each whitespace run by one hyphen, collapse hyphen runs, and trim
whitespace. -/
def generateSlug (title : String) : String :=
  let lowered := title.toList.map jsToLowerChar
  let kept := lowered.filter (fun c => isJsWordChar c ∨ isJsSpace c ∨ c = '-')
  let hyphenated := collapseRuns isJsSpace '-' kept false
  let collapsed := collapseRuns (fun c => c = '-') '-' hyphenated false
  String.mk (jsTrim collapsed)

/-- Whether a character list contains two adjacent hyphens. -/
def hasDoubleHyphen : List Char → Bool
  | [] => false
  | [_] => false
  | a :: b :: rest => (a = '-' ∧ b = '-') ∨ hasDoubleHyphen (b :: rest)

/-! ### The inline-emphasis scanner of `parseInlineFormatting`

`parseInlineFormatting` splits its input with a capturing regex whose two
alternatives are a lazy double-star emphasis and a lazy single-star
emphasis, tried in that order at each position, leftmost match first.
The scanner below implements exactly that splitting: alternating plain
pieces and matched pieces, with the matched separators kept (capturing
group semantics of JS split). -/

/-- Lazy search for the earliest closing double star: returns the content
consumed before it and the characters after the closing pair. The regex
dot does not cross a newline. -/
def findCloseBold : List Char → Option (List Char × List Char)
  | [] => none
  | c :: rest =>
    if c = '*' ∧ rest.head? = some '*' then some ([], rest.tail)
    else if c = '\n' then none
    else (findCloseBold rest).map (fun pr => (c :: pr.1, pr.2))

/-- Lazy search for the earliest closing single star. -/
def findCloseItalic : List Char → Option (List Char × List Char)
  | [] => none
  | c :: rest =>
    if c = '*' then some ([], rest)
    else if c = '\n' then none
    else (findCloseItalic rest).map (fun pr => (c :: pr.1, pr.2))

/-- Try to match one emphasis token at the start of `cs`: first the
double-star alternative (falling back, when it has no closing pair, to the
single-star alternative which then closes on the second leading star),
then the single-star alternative. Returns the matched characters and the
remainder. -/
def matchAt : List Char → Option (List Char × List Char)
  | [] => none
  | c :: rest =>
    if c = '*' ∧ rest.head? = some '*' then
      match findCloseBold rest.tail with
      | some pr => some ('*' :: '*' :: pr.1 ++ ['*', '*'], pr.2)
      | none => some (['*', '*'], rest.tail)
    else if c = '*' then
      match findCloseItalic rest with
      | some pr => some ('*' :: pr.1 ++ ['*'], pr.2)
      | none => none
    else none

/-- One pass of the JS split-with-capturing-group: walk the characters,
emitting the accumulated plain piece and the matched piece at each match.
`fuel` bounds the recursion; `matchAt` always consumes at least one
character, so fuel equal to the input length never runs out (see
`jsSplitGo_fuel_irrel`). -/
def jsSplitGo : Nat → List Char → List Char → List (List Char)
  | _, [], acc => [acc.reverse]
  | 0, cs, acc => [acc.reverse ++ cs]
  | fuel + 1, c :: rest, acc =>
    match matchAt (c :: rest) with
    | some (m, rest2) => acc.reverse :: m :: jsSplitGo fuel rest2 []
    | none => jsSplitGo fuel rest (c :: acc)

/-- JS `text.split` on the capturing emphasis regex: alternating plain and
matched pieces, empty pieces included. -/
def jsSplitStars (cs : List Char) : List (List Char) :=
  jsSplitGo cs.length cs []

/-- Prefix test on character lists (JS `startsWith` for a short literal). -/
def charsStartWith : List Char → List Char → Bool
  | [], _ => true
  | _ :: _, [] => false
  | p :: ps, c :: cs => p = c ∧ charsStartWith ps cs

/-- `parseInlineFormatting` from `contentFormatter.ts`: split on the
emphasis regex, then turn each non-empty piece into a span — strong when
wrapped in double stars, em when wrapped in single stars, plain
otherwise — falling back to one plain span with the whole text when no
span was produced. -/
def parseInlineFormatting (text : String) : List Span :=
  let parts := jsSplitStars text.toList
  let spans := parts.foldl
    (fun spans part =>
      if part = [] then spans
      else if charsStartWith ['*', '*'] part ∧
          charsStartWith ['*', '*'] part.reverse then
        spans ++
          [{ text := String.mk ((part.drop 2).dropLast.dropLast),
             marks := ["strong"] }]
      else if charsStartWith ['*'] part ∧ charsStartWith ['*'] part.reverse then
        spans ++ [{ text := String.mk ((part.drop 1).dropLast), marks := ["em"] }]
      else spans ++ [{ text := String.mk part }]) []
  if spans.length > 0 then spans else [{ text := text }]

/-- The per-line classification inside `formatBlockContent`: heading
prefixes map to h1/h2/h3, a quote prefix to a blockquote, and anything
else to a normal paragraph with inline formatting parsed. -/
def classifyLine (line : String) : PortableBlock :=
  let cs := line.toList
  if charsStartWith ['#', ' '] cs then
    .block "h1" [{ text := String.mk (cs.drop 2) }]
  else if charsStartWith ['#', '#', ' '] cs then
    .block "h2" [{ text := String.mk (cs.drop 3) }]
  else if charsStartWith ['#', '#', '#', ' '] cs then
    .block "h3" [{ text := String.mk (cs.drop 4) }]
  else if charsStartWith ['>', ' '] cs then
    .block "blockquote" [{ text := String.mk (cs.drop 2) }]
  else .block "normal" (parseInlineFormatting line)

/-- Split a character list at newlines (JS `split` on a newline). -/
def splitOnNl : List Char → List (List Char)
  | [] => [[]]
  | x :: rest =>
    match splitOnNl rest with
    | [] => [[x]]
    | piece :: more =>
      if x = '\n' then [] :: piece :: more else (x :: piece) :: more

/-- `formatBlockContent` from `contentFormatter.ts`: split the markdown on
newlines, skip blank lines, and push one classified block per remaining
line. -/
def formatBlockContent (markdown : String) : List PortableBlock :=
  ((splitOnNl markdown.toList).map String.mk).foldl
    (fun blocks line =>
      if jsTrim line.toList = [] then blocks else blocks ++ [classifyLine line])
    []

/-! ### Localized values -/

/-- Lookup in an assoc-list representation of a locale-keyed object. -/
def getLoc : List (Lang × α) → Lang → Option α
  | [], _ => none
  | e :: rest, l => if e.1 = l then some e.2 else getLoc rest l

/-- Keyed assignment on a locale-keyed object: overwrite the entry when the
key is present, append it otherwise. -/
def setLoc : List (Lang × α) → Lang → α → List (Lang × α)
  | [], l, v => [(l, v)]
  | e :: rest, l, v => if e.1 = l then (l, v) :: rest else e :: setLoc rest l v

/-- JS truthiness of an optional string field: present and non-empty. -/
def truthyStr : Option String → Bool
  | none => false
  | some s => ¬ s = ""

/-- A per-language content value as the generation endpoint returns it:
either markdown text or an already-structured block array. -/
inductive ContentValue
  | md (text : String)
  | blocks (bs : List PortableBlock)
deriving DecidableEq, Repr

/-- JS truthiness of an optional content value: an absent field and the
empty string are falsy; every array (even empty) is truthy. -/
def truthyCV : Option ContentValue → Bool
  | none => false
  | some (.md s) => ¬ s = ""
  | some (.blocks _) => true

/-! ### The generation data model (`types.ts`) -/

/-- The SEO sub-object of generated content. -/
structure SeoContent where
  metaTitle : List (Lang × String)
  metaDescription : List (Lang × String)
deriving DecidableEq, Repr

/-- The featured-image descriptor stored on `GeneratedContent`. -/
structure FeaturedImageDescriptor where
  url : String
  alt : String
  photographer : String
  photographerUrl : String
  unsplashId : String
deriving DecidableEq, Repr

/-- `GeneratedContent` from `types.ts`, built incrementally by the
per-language loop. -/
structure GeneratedContent where
  title : List (Lang × String)
  excerpt : List (Lang × String)
  content : List (Lang × ContentValue)
  tags : List String
  featuredImage : Option FeaturedImageDescriptor := none
  seo : Option SeoContent := none
deriving DecidableEq, Repr

/-- The result of `formatContentForSanity`: content converted to block
arrays per language. -/
structure FormattedContent where
  title : List (Lang × String)
  excerpt : List (Lang × String)
  content : List (Lang × List PortableBlock)
  seo : Option SeoContent
  tags : List String
deriving DecidableEq, Repr

/-- `imageSettings` on the generation form. -/
structure ImageSettings where
  featuredImage : Bool
  imageKeywords : String
  includeInlineImages : Bool
deriving DecidableEq, Repr

/-- `GenerationFormData` from `types.ts`. The category is a reference id
with the empty string for "none"; tone and length do not influence the
orchestrator's control flow and are carried opaquely. -/
structure GenerationFormData where
  topic : String
  category : String
  keywords : List String
  languages : List Lang
  tone : String
  length : String
  includeSeo : Bool
  imageSettings : ImageSettings
deriving DecidableEq, Repr

/-- `GenerationState` from `types.ts`. -/
inductive GenState
  | idle | validating | searchingImages | generating | formatting | saving
  | complete | error
deriving DecidableEq, Repr

/-- `GenerationProgress` from `types.ts` (the fields `generate` writes). -/
structure Progress where
  state : GenState
  currentLanguage : Option Lang := none
  completedLanguages : List Lang
  message : Option String := none
deriving DecidableEq, Repr

/-! ### `formatContentForSanity` (`contentFormatter.ts`) -/

/-- Update the metaTitle map inside an optional SEO object. -/
def setSeoMetaTitle (s : Option SeoContent) (l : Lang) (v : String) :
    Option SeoContent :=
  s.map fun seo => { seo with metaTitle := setLoc seo.metaTitle l v }

/-- Update the metaDescription map inside an optional SEO object. -/
def setSeoMetaDescription (s : Option SeoContent) (l : Lang) (v : String) :
    Option SeoContent :=
  s.map fun seo => { seo with metaDescription := setLoc seo.metaDescription l v }

/-- The fixed iteration order of `formatContentForSanity`. -/
def allLanguages : List Lang := [.ro, .en, .pl, .hu, .cs]

/-- Copy one language's string from a locale map into another when it is
truthy (the guarded keyed assignment both `generate` and
`formatContentForSanity` perform). -/
def mergeField (dst src : List (Lang × String)) (lang : Lang) :
    List (Lang × String) :=
  match getLoc src lang with
  | some t => if t = "" then dst else setLoc dst lang t
  | none => dst

/-- The guarded SEO copy for one language, applied only when the source
carries an SEO object. -/
def mergeSeo (dst : Option SeoContent) (src : Option SeoContent) (lang : Lang) :
    Option SeoContent :=
  match src with
  | some sr =>
    let dst :=
      match getLoc sr.metaTitle lang with
      | some t => if t = "" then dst else setSeoMetaTitle dst lang t
      | none => dst
    match getLoc sr.metaDescription lang with
    | some t => if t = "" then dst else setSeoMetaDescription dst lang t
    | none => dst
  | none => dst

/-- The content branch of `formatContentForSanity`: a truthy block array is
copied unchanged, a truthy markdown string is converted. -/
def formatContentField (dst : List (Lang × List PortableBlock))
    (src : List (Lang × ContentValue)) (lang : Lang) :
    List (Lang × List PortableBlock) :=
  match getLoc src lang with
  | some cv =>
    if truthyCV (some cv) then
      match cv with
      | .blocks bs => setLoc dst lang bs
      | .md s => setLoc dst lang (formatBlockContent s)
    else dst
  | none => dst

/-- The per-language body of `formatContentForSanity`: copy truthy title,
excerpt and SEO strings; copy a truthy content value directly when it is
already a block array, convert it from markdown when it is a string. The
source mutates one field per statement; the fields are independent, so the
iteration is stated as one simultaneous record update. -/
def formatLangStep (content : GeneratedContent) (fc : FormattedContent)
    (lang : Lang) : FormattedContent :=
  { title := mergeField fc.title content.title lang
    excerpt := mergeField fc.excerpt content.excerpt lang
    content := formatContentField fc.content content.content lang
    seo := mergeSeo fc.seo content.seo lang
    tags := fc.tags }

/-- `formatContentForSanity`: start from empty locale maps (with an empty
SEO object exactly when the input carries one) and process every supported
language in the fixed order. -/
def formatContentForSanity (content : GeneratedContent) : FormattedContent :=
  let init : FormattedContent :=
    { title := [], excerpt := [], content := []
      seo := content.seo.map fun _ => { metaTitle := [], metaDescription := [] }
      tags := content.tags }
  allLanguages.foldl (formatLangStep content) init

/-! ### The `generate` orchestrator (`useGenerateContent.ts`) -/

/-- The outcome of one `fetch` (plus body parsing): a thrown error, a
non-ok HTTP response, or a parsed body. -/
inductive FetchOutcome (α : Type)
  | thrown (msg : String)
  | httpError
  | ok (body : α)
deriving DecidableEq, Repr

/-- Whether a fetch outcome delivered a parsed body. -/
def FetchOutcome.isOk : FetchOutcome α → Bool
  | .ok _ => true
  | _ => false

/-- Whether a fetch outcome was a thrown error. -/
def FetchOutcome.isThrown : FetchOutcome α → Bool
  | .thrown _ => true
  | _ => false

/-- One Unsplash search result (the fields `generate` reads). -/
structure UnsplashImage where
  id : String
  urlRegular : String
  altDescription : Option String
  userName : String
  userLinkHtml : String
deriving DecidableEq, Repr

/-- The image-search response body. -/
structure ImageSearchBody where
  results : List UnsplashImage
deriving DecidableEq, Repr

/-- A per-language generation response body (`langContent` in the source);
`generate` only ever reads the requested language's key from each locale
map. -/
structure LangResponse where
  title : List (Lang × String)
  excerpt : List (Lang × String)
  content : List (Lang × ContentValue)
  seo : Option SeoContent
  tags : Option (List String)
deriving DecidableEq, Repr

/-- The external collaborators of one `generate` run: the image-search
endpoint response, the per-language generation endpoint responses, the
asset-upload result (`none` means the upload threw), and the clock. -/
structure Env where
  imageSearch : FetchOutcome ImageSearchBody
  genResponse : Lang → FetchOutcome LangResponse
  uploadResult : Option String
  nowIso : String

/-- A network request issued by `generate`, in issue order. -/
inductive Request
  | imageSearch (query : String)
  | generateArticle (lang : Lang)
deriving DecidableEq, Repr

/-- The featured-image field of the final document payload. -/
structure DocImage where
  assetRef : String
  alt : Option String
  caption : Option String
deriving DecidableEq, Repr

/-- The document payload `generate` returns (`documentData`). -/
structure DocumentData where
  title : List (Lang × String)
  slugCurrent : String
  excerpt : List (Lang × String)
  featuredImage : Option DocImage
  content : List (Lang × List PortableBlock)
  categories : List String
  tags : List String
  seo : Option SeoContent
  publishedAt : String
  featured : Bool
deriving DecidableEq, Repr

/-- Everything observable about one `generate` run: the returned or thrown
value, the final state, the final progress, and the requests issued. -/
structure GenOutcome where
  result : Except String DocumentData
  finalState : GenState
  finalProgress : Progress
  requests : List Request
deriving Repr

/-- JS `a || b` for an optional string against a string default. -/
def jsOrStrOpt (a : Option String) (b : String) : String :=
  match a with
  | some s => if s = "" then b else s
  | none => b

/-- `Array.from(new Set(list))`: de-duplicate preserving first occurrence. -/
def jsSetDedup (l : List String) : List String :=
  l.foldl (fun acc x => if x ∈ acc then acc else acc ++ [x]) []

/-- The image-search query: `imageKeywords` when truthy, else the topic. -/
def imageQuery (fd : GenerationFormData) : String :=
  if fd.imageSettings.imageKeywords = "" then fd.topic
  else fd.imageSettings.imageKeywords

/-- Accumulator of the per-language loop: the `completedLanguages` counter
(incremented at the top of every iteration, success or not), the content
built so far, and the requests issued so far. -/
structure LoopState where
  counter : Nat
  gc : GeneratedContent
  requests : List Request

/-- The raw content copy in the generation loop: a truthy content value is
stored unchanged (conversion happens later, in formatting). -/
def mergeContentField (dst src : List (Lang × ContentValue)) (lang : Lang) :
    List (Lang × ContentValue) :=
  match getLoc src lang with
  | some cv => if truthyCV (some cv) then setLoc dst lang cv else dst
  | none => dst

/-- The tag merge: union with the response tags, de-duplicated with JS
`Set` semantics, when the response carries a tag array. -/
def mergeTags (tags : List String) (src : Option (List String)) : List String :=
  match src with
  | some ts => jsSetDedup (tags ++ ts)
  | none => tags

/-- One iteration of the per-language loop in `generate`: issue the
request; on a thrown or non-ok response skip the language; on success
merge the truthy title/excerpt/content/SEO values for that language and,
only when this is the first iteration (`completedLanguages === 1`), merge
the response tags into the de-duplicated tag list. The source mutates one
field per statement; the fields are independent, so the merge is stated as
one simultaneous record update. -/
def mergeLang (fd : GenerationFormData) (env : Env) (st : LoopState)
    (lang : Lang) : LoopState :=
  let counter := st.counter + 1
  let requests := st.requests ++ [Request.generateArticle lang]
  match env.genResponse lang with
  | .thrown _ => { counter, gc := st.gc, requests }
  | .httpError => { counter, gc := st.gc, requests }
  | .ok lc =>
    { counter, requests
      gc :=
        { title := mergeField st.gc.title lc.title lang
          excerpt := mergeField st.gc.excerpt lc.excerpt lang
          content := mergeContentField st.gc.content lc.content lang
          seo := if fd.includeSeo then mergeSeo st.gc.seo lc.seo lang else st.gc.seo
          tags := if counter = 1 then mergeTags st.gc.tags lc.tags else st.gc.tags
          featuredImage := st.gc.featuredImage } }

/-- The `generatedContent` object as initialized before the per-language
loop: caller keywords as tags, the selected search result (if any) turned
into a featured-image descriptor, and an empty SEO object exactly when
`includeSeo` is set. -/
def initialContent (fd : GenerationFormData)
    (featuredImage : Option UnsplashImage) : GeneratedContent :=
  { title := [], excerpt := [], content := []
    tags := fd.keywords
    featuredImage := featuredImage.map fun img =>
      { url := img.urlRegular
        alt := jsOrStrOpt img.altDescription ("Image related to " ++ fd.topic)
        photographer := img.userName
        photographerUrl := img.userLinkHtml
        unsplashId := img.id }
    seo :=
      if fd.includeSeo then some { metaTitle := [], metaDescription := [] }
      else none }

/-- Steps 4–6 of `generate`: format the accumulated content, upload the
featured image when one was selected and stored (a `none` upload result
models the caught upload failure), and assemble `documentData`. -/
def assembleDocument (fd : GenerationFormData) (env : Env)
    (featuredImage : Option UnsplashImage) (gc : GeneratedContent) :
    DocumentData :=
  let formattedContent := formatContentForSanity gc
  let imageAssetId : Option String :=
    match featuredImage, gc.featuredImage with
    | some _, some _ => env.uploadResult
    | _, _ => none
  let categoryRef : Option String :=
    if fd.category = "" then none else some fd.category
  { title := formattedContent.title
    slugCurrent := generateSlug (jsOrStrOpt (getLoc formattedContent.title .ro)
      (jsOrStrOpt (getLoc formattedContent.title .en) ""))
    excerpt := formattedContent.excerpt
    featuredImage := imageAssetId.map fun assetId =>
      { assetRef := assetId
        alt := gc.featuredImage.map fun f => f.alt
        caption := gc.featuredImage.map fun f => "Photo by " ++ f.photographer }
    content := formattedContent.content
    categories :=
      match categoryRef with
      | some r => [r]
      | none => []
    tags := gc.tags
    seo := gc.seo
    publishedAt := env.nowIso
    featured := false }

/-- `generate` from `useGenerateContent.ts` as a function of the form data
and the collaborators: validation, optional featured-image search (a
thrown search aborts the run; a non-ok response or empty result list is
skipped), the sequential per-language generation loop with caught
per-language failures, local formatting, optional image upload with a
caught failure, and assembly of the final document payload. -/
def generate (fd : GenerationFormData) (env : Env) : GenOutcome :=
  if fd.topic = "" ∨ fd.languages = [] then
    { result := .error "Topic and at least one language are required"
      finalState := .error
      finalProgress := { state := .error, completedLanguages := [] }
      requests := [] }
  else
    let imgRequests :=
      if fd.imageSettings.featuredImage then [Request.imageSearch (imageQuery fd)]
      else []
    let imgOutcome : Except String (Option UnsplashImage) :=
      if fd.imageSettings.featuredImage then
        match env.imageSearch with
        | .thrown msg => .error msg
        | .httpError => .ok none
        | .ok body => .ok body.results.head?
      else .ok none
    match imgOutcome with
    | .error msg =>
      { result := .error msg
        finalState := .error
        finalProgress := { state := .error, completedLanguages := [] }
        requests := imgRequests }
    | .ok featuredImage =>
      let final := fd.languages.foldl (mergeLang fd env)
        { counter := 0, gc := initialContent fd featuredImage
          requests := imgRequests }
      { result := .ok (assembleDocument fd env featuredImage final.gc)
        finalState := .complete
        finalProgress := { state := .complete, completedLanguages := fd.languages }
        requests := final.requests }

/-! ### The secrets loader (`src/lib/secrets-manager.ts`) -/

/-- The three environments `getEnvironment` can report. -/
inductive Environment
  | production | staging | development
deriving DecidableEq, Repr

/-- The environment-to-suffix map of `formatSecretName`. -/
def suffixMap : Environment → String
  | .production => "_PROD"
  | .staging => "_STG"
  | .development => "_DEV"

/-- Suffix test on strings (JS `endsWith`), char-level. -/
def strEndsWith (s suffix : String) : Bool :=
  charsStartWith suffix.toList.reverse s.toList.reverse

/-- `formatSecretName` from `secrets-manager.ts`: keep a name that already
carries an environment suffix; in development return the bare name (the
source tries it without a suffix first, for backward compatibility);
otherwise append the environment's suffix. -/
def formatSecretName (secretName : String) (env : Environment) : String :=
  let suffix := suffixMap env
  if strEndsWith secretName "_PROD" ∨ strEndsWith secretName "_STG" ∨
      strEndsWith secretName "_DEV" then
    secretName
  else if env = .development then secretName
  else secretName ++ suffix

/-- One entry of the module-level `secretsCache`. -/
structure CachedSecret where
  value : String
  timestamp : Nat
deriving DecidableEq, Repr

/-- String-keyed assoc lookup (the cache `Map.get`). -/
def assocGet : List (String × CachedSecret) → String → Option CachedSecret
  | [], _ => none
  | e :: rest, k => if e.1 = k then some e.2 else assocGet rest k

/-- String-keyed assoc update (the cache `Map.set`). -/
def assocSet : List (String × CachedSecret) → String → CachedSecret →
    List (String × CachedSecret)
  | [], k, v => [(k, v)]
  | e :: rest, k, v => if e.1 = k then (k, v) :: rest else e :: assocSet rest k v

/-- `CACHE_TIMEOUT`: five minutes in milliseconds. -/
def cacheTimeout : Nat := 5 * 60 * 1000

/-- The ambient state `getSecret` reads: the detected environment, the
process environment variables, the remote secret store keyed by full
resource name (`none` models a throwing or empty `accessSecretVersion`),
and the clock (`Date.now()`). -/
structure SecretsEnv where
  environment : Environment
  envVars : String → Option String
  remote : String → Option String
  now : Nat

/-- The options object of `getSecret`, with the source's defaults. -/
structure GetSecretOptions where
  environment : Option Environment := none
  useCache : Bool := true
  projectId : Option String := none

/-- `getProjectId`: environment variables with a literal fallback. -/
def getProjectId (senv : SecretsEnv) : String :=
  jsOrStrOpt (senv.envVars "GOOGLE_CLOUD_PROJECT")
    (jsOrStrOpt (senv.envVars "GCP_PROJECT_ID") "careful-drummer-468512-p0")

/-- The project id after applying the destructuring default. -/
def resolvedProjectId (opts : GetSecretOptions) (senv : SecretsEnv) : String :=
  match opts.projectId with
  | some p => p
  | none => getProjectId senv

/-- The environment `formatSecretName` receives: the explicit override or
the detected one. -/
def resolvedEnvironment (opts : GetSecretOptions) (senv : SecretsEnv) :
    Environment :=
  match opts.environment with
  | some e => e
  | none => senv.environment

/-- The cache key `getSecret` uses for a request. -/
def cacheKeyOf (secretName : String) (opts : GetSecretOptions)
    (senv : SecretsEnv) : String :=
  resolvedProjectId opts senv ++ "/" ++
    formatSecretName secretName (resolvedEnvironment opts senv)

/-- The full resource name passed to `accessSecretVersion`. -/
def resourceNameOf (secretName : String) (opts : GetSecretOptions)
    (senv : SecretsEnv) : String :=
  "projects/" ++ resolvedProjectId opts senv ++ "/secrets/" ++
    formatSecretName secretName (resolvedEnvironment opts senv) ++
    "/versions/latest"

/-- Everything observable about one `getSecret` call: the returned value
(`none` models a thrown error), the cache afterwards, and the resource
names passed to `accessSecretVersion`. -/
structure GetSecretResult where
  result : Option String
  cache : List (String × CachedSecret)
  remoteCalls : List String
deriving DecidableEq, Repr

/-- The cache consultation at the top of `getSecret`: only under
`useCache`, and only an entry younger than the five-minute timeout counts. -/
def cachedLookup (opts : GetSecretOptions) (senv : SecretsEnv)
    (cache : List (String × CachedSecret)) (cacheKey : String) :
    Option CachedSecret :=
  if opts.useCache then
    match assocGet cache cacheKey with
    | some cached =>
      if senv.now - cached.timestamp < cacheTimeout then some cached else none
    | none => none
  else none

/-- The development-only fallback of `getSecret`: a truthy local
environment variable under the bare secret name. -/
def devOverrideOf (senv : SecretsEnv) (secretName : String) : Option String :=
  if senv.environment = .development then
    match senv.envVars secretName with
    | some v => if v = "" then none else some v
    | none => none
  else none

/-- `getSecret` from `secrets-manager.ts`: consult the cache first (when
`useCache` is on) and return a hit younger than five minutes; otherwise in
development fall back to a truthy local environment variable under the
bare name; otherwise call the remote store, caching a success under
`useCache`. -/
def getSecret (secretName : String) (opts : GetSecretOptions)
    (senv : SecretsEnv) (cache : List (String × CachedSecret)) :
    GetSecretResult :=
  let cacheKey := cacheKeyOf secretName opts senv
  match cachedLookup opts senv cache cacheKey with
  | some cached => { result := some cached.value, cache := cache, remoteCalls := [] }
  | none =>
    match devOverrideOf senv secretName with
    | some v => { result := some v, cache := cache, remoteCalls := [] }
    | none =>
      let name := resourceNameOf secretName opts senv
      match senv.remote name with
      | some secretValue =>
        { result := some secretValue
          cache :=
            if opts.useCache then
              assocSet cache cacheKey { value := secretValue, timestamp := senv.now }
            else cache
          remoteCalls := [name] }
      | none => { result := none, cache := cache, remoteCalls := [name] }

/-! ## Concrete fixtures for witnesses and counterexamples -/

/-- A small valid generation request: two languages, one caller keyword. -/
def fdFixture : GenerationFormData :=
  { topic := "dog care", category := "", keywords := ["k"]
    languages := [.ro, .en], tone := "professional", length := "medium"
    includeSeo := false
    imageSettings :=
      { featuredImage := false, imageKeywords := "", includeInlineImages := false } }

/-- A successful English response carrying the tag "a". -/
def lcEnFixture : LangResponse :=
  { title := [(.en, "Hello")], excerpt := [(.en, "Exc")]
    content := [(.en, .md "# T")], seo := none, tags := some ["a"] }

/-- Collaborators where the Romanian request fails with a non-ok response
and the English one succeeds. -/
def envRoFails : Env :=
  { imageSearch := .httpError
    genResponse := fun l =>
      match l with
      | .en => .ok lcEnFixture
      | _ => .httpError
    uploadResult := none
    nowIso := "2026-01-01T00:00:00Z" }

/-- The same request with the featured-image search enabled. -/
def fdImgFixture : GenerationFormData :=
  { fdFixture with
    imageSettings :=
      { featuredImage := true, imageKeywords := "", includeInlineImages := false } }

/-- Collaborators whose image-search fetch throws. -/
def envImgThrows : Env := { envRoFails with imageSearch := .thrown "Failed to fetch" }

/-- Whether a run returned a payload (rather than throwing). -/
def resultIsOk (o : GenOutcome) : Bool :=
  match o.result with
  | .ok _ => true
  | .error _ => false

/-- The tag list of a run's payload (empty when the run threw). -/
def resultTags (o : GenOutcome) : List String :=
  match o.result with
  | .ok d => d.tags
  | .error _ => []

/-- A production secrets environment with no local overrides whose remote
store answers every request. -/
def senvFixture : SecretsEnv :=
  { environment := .production
    envVars := fun _ => none
    remote := fun _ => some "remote-value"
    now := 200000 }

/-- A cache holding a 100-second-old entry for the qualified key of
`SANITY_API_TOKEN` in production under the default project id. -/
def cacheFixture : List (String × CachedSecret) :=
  [("careful-drummer-468512-p0/SANITY_API_TOKEN_PROD",
    { value := "cached-value", timestamp := 100000 })]

/-! ## Helper lemmas -/

theorem findCloseBold_length (cs : List Char) :
    ∀ content rest, findCloseBold cs = some (content, rest) →
      rest.length + 2 ≤ cs.length := by
  induction cs with
  | nil => intro content rest h; simp [findCloseBold] at h
  | cons c cs ih =>
    intro content rest h
    rw [findCloseBold] at h
    split at h
    · rename_i hc
      cases cs with
      | nil => simp at hc
      | cons c2 cs2 =>
        simp only [Option.some.injEq, Prod.mk.injEq] at h
        simp [← h.2]
    · simp at h
      obtain ⟨-, a, hf, -⟩ := h
      have := ih a rest hf
      simp only [List.length_cons]
      omega

theorem findCloseItalic_length (cs : List Char) :
    ∀ content rest, findCloseItalic cs = some (content, rest) →
      rest.length + 1 ≤ cs.length := by
  induction cs with
  | nil => intro content rest h; simp [findCloseItalic] at h
  | cons c cs ih =>
    intro content rest h
    rw [findCloseItalic] at h
    split at h
    · simp only [Option.some.injEq, Prod.mk.injEq] at h
      simp [← h.2]
    · simp at h
      obtain ⟨-, a, hf, -⟩ := h
      have := ih a rest hf
      simp only [List.length_cons]
      omega

theorem matchAt_length (cs : List Char) :
    ∀ m rest, matchAt cs = some (m, rest) → rest.length < cs.length := by
  intro m rest h
  match cs with
  | [] => simp [matchAt] at h
  | c :: cs =>
    rw [matchAt] at h
    by_cases h1 : c = '*' ∧ cs.head? = some '*'
    · rw [if_pos h1] at h
      cases cs with
      | nil => simp at h1
      | cons c2 cs2 =>
        simp only [List.tail_cons] at h
        cases hf : findCloseBold cs2 with
        | none =>
          rw [hf] at h
          simp only [Option.some.injEq, Prod.mk.injEq] at h
          rw [← h.2]
          simp only [List.length_cons]
          omega
        | some pr =>
          obtain ⟨a, b⟩ := pr
          rw [hf] at h
          simp only [Option.some.injEq, Prod.mk.injEq] at h
          have := findCloseBold_length _ _ _ hf
          rw [h.2] at this
          simp only [List.length_cons]
          omega
    · rw [if_neg h1] at h
      by_cases h2 : c = '*'
      · rw [if_pos h2] at h
        cases hf : findCloseItalic cs with
        | none => rw [hf] at h; simp at h
        | some pr =>
          obtain ⟨a, b⟩ := pr
          rw [hf] at h
          simp only [Option.some.injEq, Prod.mk.injEq] at h
          have := findCloseItalic_length _ _ _ hf
          rw [h.2] at this
          simp only [List.length_cons]
          omega
      · rw [if_neg h2] at h
        simp at h

/-- The fuel argument of `jsSplitGo` is irrelevant once it reaches the
input length: the truncation branch is unreachable. -/
theorem jsSplitGo_fuel_irrel (fuel1 : Nat) :
    ∀ fuel2 cs acc, cs.length ≤ fuel1 → cs.length ≤ fuel2 →
      jsSplitGo fuel1 cs acc = jsSplitGo fuel2 cs acc := by
  induction fuel1 with
  | zero =>
    intro fuel2 cs acc h1 _
    have : cs = [] := List.length_eq_zero.mp (Nat.le_zero.mp h1)
    subst this
    cases fuel2 <;> rfl
  | succ fuel1 ih =>
    intro fuel2 cs acc h1 h2
    cases cs with
    | nil => cases fuel2 <;> rfl
    | cons c rest =>
      cases fuel2 with
      | zero => simp at h2
      | succ fuel2 =>
        rw [jsSplitGo, jsSplitGo]
        cases hm : matchAt (c :: rest) with
        | none =>
          simp only
          exact ih fuel2 rest (c :: acc)
            (by simp at h1; omega) (by simp at h2; omega)
        | some pr =>
          obtain ⟨m, rest2⟩ := pr
          simp only
          have hlt := matchAt_length _ _ _ hm
          rw [ih fuel2 rest2 []
            (by simp at h1 hlt ⊢; omega) (by simp at h2 hlt ⊢; omega)]

theorem spliceInsert_length (pos : Nat) (x : α) (l : List α) :
    (spliceInsert pos x l).length = l.length + 1 := by
  simp [spliceInsert]
  omega

theorem sublist_spliceInsert (pos : Nat) (x : α) (l : List α) :
    l.Sublist (spliceInsert pos x l) := by
  conv_lhs => rw [← List.take_append_drop pos l]
  exact List.Sublist.append_left (List.sublist_cons_self x _) _

theorem foldl_spliceInsert_length (g : Nat × Nat → PortableBlock) :
    ∀ (ips : List (Nat × Nat)) (bs : List PortableBlock),
      (ips.foldl (fun nb ip => spliceInsert ip.2 (g ip) nb) bs).length
        = bs.length + ips.length := by
  intro ips
  induction ips with
  | nil => intro bs; simp
  | cons ip ips ih =>
    intro bs
    simp only [List.foldl_cons, List.length_cons]
    rw [ih, spliceInsert_length]
    omega

theorem foldl_spliceInsert_sublist (g : Nat × Nat → PortableBlock) :
    ∀ (ips : List (Nat × Nat)) (bs : List PortableBlock),
      bs.Sublist (ips.foldl (fun nb ip => spliceInsert ip.2 (g ip) nb) bs) := by
  intro ips
  induction ips with
  | nil => intro bs; simp
  | cons ip ips ih =>
    intro bs
    simp only [List.foldl_cons]
    exact (sublist_spliceInsert ip.2 (g ip) bs).trans (ih _)

/-! ## C5 and C10: `addImagePlaceholders` -/

/-- C5: on a 6-block list with 2 requested placeholders, the spacing is
⌊6/3⌋ = 2, the placeholders are inserted back-to-front at offsets 4 then
2, so "Placeholder 1" ends up after 2 original blocks and "Placeholder 2"
after 4; and any list of fewer than 3 blocks is returned unchanged for
every requested count. -/
theorem addImagePlaceholders_six_two (a b c d e f : PortableBlock) :
    addImagePlaceholders [a, b, c, d, e, f] 2 =
      [a, b,
       .imagePlaceholder "[Placeholder 1: Add relevant image here]"
         "Replace with appropriate image",
       c, d,
       .imagePlaceholder "[Placeholder 2: Add relevant image here]"
         "Replace with appropriate image",
       e, f] ∧
    ∀ (bs : List PortableBlock) (count : Nat), bs.length < 3 →
      addImagePlaceholders bs count = bs := by
  constructor
  · unfold addImagePlaceholders
    simp only [List.length_cons, List.length_nil]
    norm_num
    rfl
  · intro bs count h
    unfold addImagePlaceholders
    simp [h]

theorem addImagePlaceholders_six_two_witness :
    addImagePlaceholders
        [.block "one" [], .block "two" [], .block "three" [],
         .block "four" [], .block "five" [], .block "six" []] 2 =
      [.block "one" [], .block "two" [],
       .imagePlaceholder "[Placeholder 1: Add relevant image here]"
         "Replace with appropriate image",
       .block "three" [], .block "four" [],
       .imagePlaceholder "[Placeholder 2: Add relevant image here]"
         "Replace with appropriate image",
       .block "five" [], .block "six" []] ∧
    addImagePlaceholders [.block "one" [], .block "two" []] 7 =
      [.block "one" [], .block "two" []] :=
  ⟨(addImagePlaceholders_six_two (.block "one" []) (.block "two" [])
      (.block "three" []) (.block "four" []) (.block "five" [])
      (.block "six" [])).1,
   (addImagePlaceholders_six_two (.block "one" []) (.block "two" [])
      (.block "three" []) (.block "four" []) (.block "five" [])
      (.block "six" [])).2 [.block "one" [], .block "two" []] 7 (by decide)⟩

/-- C10: `addImagePlaceholders` is pure — the embedding returns its input
list unchanged (the very list, not a copy) when it has fewer than 3
blocks, and otherwise returns a new list of length `input + count` in
which the original blocks appear in their original relative order
(sublist). -/
theorem addImagePlaceholders_frame (blocks : List PortableBlock) (count : Nat) :
    (blocks.length < 3 → addImagePlaceholders blocks count = blocks) ∧
    (3 ≤ blocks.length →
      (addImagePlaceholders blocks count).length = blocks.length + count ∧
      blocks.Sublist (addImagePlaceholders blocks count)) := by
  constructor
  · intro h
    unfold addImagePlaceholders
    simp [h]
  · intro h
    unfold addImagePlaceholders
    rw [if_neg (by omega)]
    refine ⟨?_, ?_⟩
    · have hl := foldl_spliceInsert_length
        (fun ip => placeholderFor count ip.1)
        ((((List.range' 1 count).map
          (fun i => blocks.length / (count + 1) * i)).reverse).enum) blocks
      simp only at hl
      rw [hl]
      simp
    · exact foldl_spliceInsert_sublist (fun ip => placeholderFor count ip.1) _ blocks

theorem addImagePlaceholders_frame_witness :
    (addImagePlaceholders [.block "one" [], .block "two" []] 2 =
      [.block "one" [], .block "two" []]) ∧
    (addImagePlaceholders
        [.block "one" [], .block "two" [], .block "three" []] 2).length = 5 ∧
    List.Sublist [.block "one" [], .block "two" [], .block "three" []]
      (addImagePlaceholders
        [.block "one" [], .block "two" [], .block "three" []] 2) :=
  ⟨(addImagePlaceholders_frame [.block "one" [], .block "two" []] 2).1
    (by decide),
   (addImagePlaceholders_frame
     [.block "one" [], .block "two" [], .block "three" []] 2).2 (by decide)⟩

/-! ## C6: `generateSlug` -/

/-- C6: the slug of the Romanian title "Câine fericit!" is lower-cased,
stripped of punctuation (the regex strips every character outside
word/space/hyphen, which also drops the accented letter), with spaces
collapsed to single hyphens; the resulting slug has no leading hyphen, no
trailing hyphen and no repeated hyphen. -/
theorem generateSlug_caine :
    generateSlug "Câine fericit!" = "cine-fericit" ∧
    (generateSlug "Câine fericit!").toList.head? ≠ some '-' ∧
    (generateSlug "Câine fericit!").toList.getLast? ≠ some '-' ∧
    hasDoubleHyphen (generateSlug "Câine fericit!").toList = false := by
  decide

/-! ## C4: `formatBlockContent` -/

theorem foldl_skip_blank (ls : List String) :
    ∀ acc : List PortableBlock,
      ls.foldl
        (fun blocks line =>
          if jsTrim line.toList = [] then blocks else blocks ++ [classifyLine line])
        acc
      = acc ++ (ls.filter
          (fun line => !decide (jsTrim line.toList = []))).map classifyLine := by
  induction ls with
  | nil => intro acc; simp
  | cons l ls ih =>
    intro acc
    simp only [String.toList] at ih ⊢
    simp only [List.foldl_cons, List.filter_cons]
    by_cases h : jsTrim l.data = []
    · rw [if_pos h]
      simp [h, ih]
    · rw [if_neg h]
      simp [h, ih]

/-- C4: each non-blank line is classified independently — the whole output
is the classification map over the non-blank lines, so blank lines produce
no block; the line "# Title" becomes one h1 block whose only child is an
unmarked span "Title"; a paragraph with double-star and single-star
emphasis becomes a normal block with exactly the three spans
strong/plain/em in order. -/
theorem formatBlockContent_spec :
    formatBlockContent "# Title" =
      [.block "h1" [{ text := "Title" }]] ∧
    formatBlockContent "**bold** and *italic*" =
      [.block "normal"
        [{ text := "bold", marks := ["strong"] },
         { text := " and " },
         { text := "italic", marks := ["em"] }]] ∧
    ∀ markdown : String,
      formatBlockContent markdown =
        (((splitOnNl markdown.toList).map String.mk).filter
          (fun line => !decide (jsTrim line.toList = []))).map classifyLine := by
  refine ⟨by decide, by decide, ?_⟩
  intro markdown
  unfold formatBlockContent
  rw [foldl_skip_blank]
  simp

/-! ## C8: `formatSecretName` -/

/-- C8 counterexample: in the development environment a name without an
environment suffix is returned unchanged — the `_DEV` suffix the claim
predicts is never appended. -/
theorem formatSecretName_dev_counterexample :
    formatSecretName "SANITY_API_TOKEN" .development = "SANITY_API_TOKEN" ∧
    formatSecretName "SANITY_API_TOKEN" .development ≠
      "SANITY_API_TOKEN" ++ suffixMap .development := by
  decide

/-- C8 amended: a name without an environment suffix gets `_PROD` appended
in production and `_STG` in staging, but is returned unchanged in
development (the source tries the bare name first there); a name already
ending in `_PROD` is returned unchanged in every environment. -/
theorem formatSecretName_amended :
    (∀ name : String,
      strEndsWith name "_PROD" = false → strEndsWith name "_STG" = false →
      strEndsWith name "_DEV" = false →
      formatSecretName name .production = name ++ "_PROD" ∧
      formatSecretName name .staging = name ++ "_STG" ∧
      formatSecretName name .development = name) ∧
    (∀ (name : String) (env : Environment),
      strEndsWith name "_PROD" = true → formatSecretName name env = name) := by
  constructor
  · intro name h1 h2 h3
    refine ⟨?_, ?_, ?_⟩ <;> simp [formatSecretName, h1, h2, h3, suffixMap]
  · intro name env h
    simp [formatSecretName, h]

theorem formatSecretName_amended_witness :
    (formatSecretName "UNSPLASH_ACCESS_KEY" .production =
      "UNSPLASH_ACCESS_KEY" ++ "_PROD" ∧
     formatSecretName "UNSPLASH_ACCESS_KEY" .staging =
      "UNSPLASH_ACCESS_KEY" ++ "_STG" ∧
     formatSecretName "UNSPLASH_ACCESS_KEY" .development =
      "UNSPLASH_ACCESS_KEY") ∧
    formatSecretName "SANITY_TOKEN_PROD" .staging = "SANITY_TOKEN_PROD" :=
  ⟨formatSecretName_amended.1 "UNSPLASH_ACCESS_KEY"
      (by decide) (by decide) (by decide),
   formatSecretName_amended.2 "SANITY_TOKEN_PROD" .staging (by decide)⟩

/-! ## Helper lemmas about locale maps and the generation loop -/

theorem mem_setLoc {α : Type} :
    ∀ (m : List (Lang × α)) (l0 : Lang) (v0 : α) (l : Lang) (v : α),
      (l, v) ∈ setLoc m l0 v0 → (l, v) ∈ m ∨ (l = l0 ∧ v = v0) := by
  intro m l0 v0
  induction m with
  | nil =>
    intro l v h
    simp [setLoc] at h
    exact Or.inr h
  | cons e rest ih =>
    intro l v h
    unfold setLoc at h
    split at h
    · rcases List.mem_cons.mp h with h1 | h2
      · exact Or.inr (by simpa using h1)
      · exact Or.inl (List.mem_cons_of_mem _ h2)
    · rcases List.mem_cons.mp h with h1 | h2
      · exact Or.inl (by simp [h1])
      · rcases ih l v h2 with h3 | h3
        · exact Or.inl (List.mem_cons_of_mem _ h3)
        · exact Or.inr h3

theorem getLoc_mem {α : Type} :
    ∀ (m : List (Lang × α)) (l : Lang) (v : α),
      getLoc m l = some v → (l, v) ∈ m := by
  intro m
  induction m with
  | nil => intro l v h; simp [getLoc] at h
  | cons e rest ih =>
    intro l v h
    unfold getLoc at h
    split at h
    · rename_i heq
      injection h with h
      exact List.mem_cons.mpr (Or.inl (by simp [← heq, ← h]))
    · exact List.mem_cons_of_mem _ (ih l v h)

theorem mem_mergeField (dst src : List (Lang × String)) (lang l : Lang)
    (v : String) :
    (l, v) ∈ mergeField dst src lang →
    (l, v) ∈ dst ∨ (l = lang ∧ getLoc src lang = some v) := by
  intro h
  unfold mergeField at h
  cases hg : getLoc src lang with
  | none => rw [hg] at h; exact Or.inl h
  | some t =>
    rw [hg] at h
    replace h : (l, v) ∈ (if t = "" then dst else setLoc dst lang t) := h
    by_cases ht : t = ""
    · rw [if_pos ht] at h; exact Or.inl h
    · rw [if_neg ht] at h
      rcases mem_setLoc dst lang t l v h with h1 | ⟨h2, h3⟩
      · exact Or.inl h1
      · exact Or.inr ⟨h2, by rw [h3]⟩

theorem mem_mergeContentField (dst src : List (Lang × ContentValue))
    (lang l : Lang) (v : ContentValue) :
    (l, v) ∈ mergeContentField dst src lang →
    (l, v) ∈ dst ∨ (l = lang ∧ ∃ cv, getLoc src lang = some cv) := by
  intro h
  unfold mergeContentField at h
  cases hg : getLoc src lang with
  | none => rw [hg] at h; exact Or.inl h
  | some cv =>
    rw [hg] at h
    replace h : (l, v) ∈ (if truthyCV (some cv) = true then setLoc dst lang cv else dst) := h
    by_cases ht : truthyCV (some cv) = true
    · rw [if_pos ht] at h
      rcases mem_setLoc dst lang cv l v h with h1 | ⟨h2, _⟩
      · exact Or.inl h1
      · exact Or.inr ⟨h2, cv, rfl⟩
    · rw [if_neg ht] at h
      exact Or.inl h

theorem mem_formatContentField (dst : List (Lang × List PortableBlock))
    (src : List (Lang × ContentValue)) (lang l : Lang)
    (bs : List PortableBlock) :
    (l, bs) ∈ formatContentField dst src lang →
    (l, bs) ∈ dst ∨ (l = lang ∧ ∃ cv, getLoc src lang = some cv) := by
  intro h
  unfold formatContentField at h
  cases hg : getLoc src lang with
  | none => rw [hg] at h; exact Or.inl h
  | some cv =>
    rw [hg] at h
    cases cv with
    | blocks bs2 =>
      replace h : (l, bs) ∈ setLoc dst lang bs2 := h
      rcases mem_setLoc dst lang bs2 l bs h with h1 | ⟨h2, _⟩
      · exact Or.inl h1
      · exact Or.inr ⟨h2, _, rfl⟩
    | md s =>
      replace h : (l, bs) ∈
        (if truthyCV (some (ContentValue.md s)) = true then
          setLoc dst lang (formatBlockContent s)
        else dst) := h
      by_cases hs : truthyCV (some (ContentValue.md s)) = true
      · rw [if_pos hs] at h
        rcases mem_setLoc dst lang (formatBlockContent s) l bs h with h1 | ⟨h2, _⟩
        · exact Or.inl h1
        · exact Or.inr ⟨h2, _, rfl⟩
      · rw [if_neg hs] at h
        exact Or.inl h

theorem mergeLang_requests (fd : GenerationFormData) (env : Env)
    (st : LoopState) (lang : Lang) :
    (mergeLang fd env st lang).requests =
      st.requests ++ [Request.generateArticle lang] := by
  unfold mergeLang
  cases env.genResponse lang <;> rfl

theorem loop_requests (fd : GenerationFormData) (env : Env) :
    ∀ (langs : List Lang) (st : LoopState),
      (langs.foldl (mergeLang fd env) st).requests =
        st.requests ++ langs.map Request.generateArticle := by
  intro langs
  induction langs with
  | nil => intro st; simp
  | cons lang langs ih =>
    intro st
    simp only [List.foldl_cons, List.map_cons]
    rw [ih, mergeLang_requests]
    simp

theorem mergeLang_counter (fd : GenerationFormData) (env : Env)
    (st : LoopState) (lang : Lang) :
    (mergeLang fd env st lang).counter = st.counter + 1 := by
  unfold mergeLang
  cases env.genResponse lang <;> rfl

theorem mergeLang_gc_title (fd : GenerationFormData) (env : Env)
    (st : LoopState) (lang l : Lang) (v : String) :
    (l, v) ∈ (mergeLang fd env st lang).gc.title →
    (l, v) ∈ st.gc.title ∨ (l = lang ∧ (env.genResponse lang).isOk = true) := by
  unfold mergeLang
  cases hres : env.genResponse lang with
  | thrown m => intro h; exact Or.inl h
  | httpError => intro h; exact Or.inl h
  | ok lc =>
    intro h
    replace h : (l, v) ∈ mergeField st.gc.title lc.title lang := h
    rcases mem_mergeField _ _ _ _ _ h with h1 | ⟨h2, _⟩
    · exact Or.inl h1
    · exact Or.inr ⟨h2, rfl⟩

theorem mergeLang_gc_excerpt (fd : GenerationFormData) (env : Env)
    (st : LoopState) (lang l : Lang) (v : String) :
    (l, v) ∈ (mergeLang fd env st lang).gc.excerpt →
    (l, v) ∈ st.gc.excerpt ∨ (l = lang ∧ (env.genResponse lang).isOk = true) := by
  unfold mergeLang
  cases hres : env.genResponse lang with
  | thrown m => intro h; exact Or.inl h
  | httpError => intro h; exact Or.inl h
  | ok lc =>
    intro h
    replace h : (l, v) ∈ mergeField st.gc.excerpt lc.excerpt lang := h
    rcases mem_mergeField _ _ _ _ _ h with h1 | ⟨h2, _⟩
    · exact Or.inl h1
    · exact Or.inr ⟨h2, rfl⟩

theorem mergeLang_gc_content (fd : GenerationFormData) (env : Env)
    (st : LoopState) (lang l : Lang) (v : ContentValue) :
    (l, v) ∈ (mergeLang fd env st lang).gc.content →
    (l, v) ∈ st.gc.content ∨ (l = lang ∧ (env.genResponse lang).isOk = true) := by
  unfold mergeLang
  cases hres : env.genResponse lang with
  | thrown m => intro h; exact Or.inl h
  | httpError => intro h; exact Or.inl h
  | ok lc =>
    intro h
    replace h : (l, v) ∈ mergeContentField st.gc.content lc.content lang := h
    rcases mem_mergeContentField _ _ _ _ _ h with h1 | ⟨h2, _⟩
    · exact Or.inl h1
    · exact Or.inr ⟨h2, rfl⟩

theorem loop_title_mem (fd : GenerationFormData) (env : Env) :
    ∀ (langs : List Lang) (st : LoopState) (l : Lang) (v : String),
      (l, v) ∈ (langs.foldl (mergeLang fd env) st).gc.title →
      (l, v) ∈ st.gc.title ∨ (l ∈ langs ∧ (env.genResponse l).isOk = true) := by
  intro langs
  induction langs with
  | nil => intro st l v h; exact Or.inl h
  | cons lang langs ih =>
    intro st l v h
    simp only [List.foldl_cons] at h
    rcases ih _ l v h with h1 | ⟨h2, h3⟩
    · rcases mergeLang_gc_title fd env st lang l v h1 with h4 | ⟨h5, h6⟩
      · exact Or.inl h4
      · exact Or.inr ⟨List.mem_cons.mpr (Or.inl h5), h5 ▸ h6⟩
    · exact Or.inr ⟨List.mem_cons_of_mem _ h2, h3⟩

theorem loop_excerpt_mem (fd : GenerationFormData) (env : Env) :
    ∀ (langs : List Lang) (st : LoopState) (l : Lang) (v : String),
      (l, v) ∈ (langs.foldl (mergeLang fd env) st).gc.excerpt →
      (l, v) ∈ st.gc.excerpt ∨ (l ∈ langs ∧ (env.genResponse l).isOk = true) := by
  intro langs
  induction langs with
  | nil => intro st l v h; exact Or.inl h
  | cons lang langs ih =>
    intro st l v h
    simp only [List.foldl_cons] at h
    rcases ih _ l v h with h1 | ⟨h2, h3⟩
    · rcases mergeLang_gc_excerpt fd env st lang l v h1 with h4 | ⟨h5, h6⟩
      · exact Or.inl h4
      · exact Or.inr ⟨List.mem_cons.mpr (Or.inl h5), h5 ▸ h6⟩
    · exact Or.inr ⟨List.mem_cons_of_mem _ h2, h3⟩

theorem loop_content_mem (fd : GenerationFormData) (env : Env) :
    ∀ (langs : List Lang) (st : LoopState) (l : Lang) (v : ContentValue),
      (l, v) ∈ (langs.foldl (mergeLang fd env) st).gc.content →
      (l, v) ∈ st.gc.content ∨ (l ∈ langs ∧ (env.genResponse l).isOk = true) := by
  intro langs
  induction langs with
  | nil => intro st l v h; exact Or.inl h
  | cons lang langs ih =>
    intro st l v h
    simp only [List.foldl_cons] at h
    rcases ih _ l v h with h1 | ⟨h2, h3⟩
    · rcases mergeLang_gc_content fd env st lang l v h1 with h4 | ⟨h5, h6⟩
      · exact Or.inl h4
      · exact Or.inr ⟨List.mem_cons.mpr (Or.inl h5), h5 ▸ h6⟩
    · exact Or.inr ⟨List.mem_cons_of_mem _ h2, h3⟩

theorem fc_title_mem (gc : GeneratedContent) :
    ∀ (langs : List Lang) (fc : FormattedContent) (l : Lang) (v : String),
      (l, v) ∈ (langs.foldl (formatLangStep gc) fc).title →
      (l, v) ∈ fc.title ∨ (l, v) ∈ gc.title := by
  intro langs
  induction langs with
  | nil => intro fc l v h; exact Or.inl h
  | cons lang langs ih =>
    intro fc l v h
    simp only [List.foldl_cons] at h
    rcases ih _ l v h with h1 | h2
    · rcases mem_mergeField _ _ _ _ _ h1 with h3 | ⟨h4, h5⟩
      · exact Or.inl h3
      · exact Or.inr (getLoc_mem _ _ _ (h4 ▸ h5))
    · exact Or.inr h2

theorem fc_excerpt_mem (gc : GeneratedContent) :
    ∀ (langs : List Lang) (fc : FormattedContent) (l : Lang) (v : String),
      (l, v) ∈ (langs.foldl (formatLangStep gc) fc).excerpt →
      (l, v) ∈ fc.excerpt ∨ (l, v) ∈ gc.excerpt := by
  intro langs
  induction langs with
  | nil => intro fc l v h; exact Or.inl h
  | cons lang langs ih =>
    intro fc l v h
    simp only [List.foldl_cons] at h
    rcases ih _ l v h with h1 | h2
    · rcases mem_mergeField _ _ _ _ _ h1 with h3 | ⟨h4, h5⟩
      · exact Or.inl h3
      · exact Or.inr (getLoc_mem _ _ _ (h4 ▸ h5))
    · exact Or.inr h2

theorem fc_content_mem (gc : GeneratedContent) :
    ∀ (langs : List Lang) (fc : FormattedContent) (l : Lang)
        (bs : List PortableBlock),
      (l, bs) ∈ (langs.foldl (formatLangStep gc) fc).content →
      (l, bs) ∈ fc.content ∨ ∃ cv, (l, cv) ∈ gc.content := by
  intro langs
  induction langs with
  | nil => intro fc l bs h; exact Or.inl h
  | cons lang langs ih =>
    intro fc l bs h
    simp only [List.foldl_cons] at h
    rcases ih _ l bs h with h1 | h2
    · rcases mem_formatContentField _ _ _ _ _ h1 with h3 | ⟨h4, cv, h5⟩
      · exact Or.inl h3
      · exact Or.inr ⟨cv, getLoc_mem _ _ _ (h4 ▸ h5)⟩
    · exact Or.inr h2

/-- On the happy path (validation passed, image phase did not throw),
`generate` returns the assembled document of the loop's final content. -/
theorem generate_ok_eq (fd : GenerationFormData) (env : Env)
    (featuredImage : Option UnsplashImage)
    (hval : ¬ (fd.topic = "" ∨ fd.languages = []))
    (himg : (if fd.imageSettings.featuredImage then
        match env.imageSearch with
        | .thrown msg => Except.error msg
        | .httpError => Except.ok none
        | .ok body => Except.ok body.results.head?
      else Except.ok (none : Option UnsplashImage)) = Except.ok featuredImage) :
    generate fd env =
      { result := .ok (assembleDocument fd env featuredImage
          (fd.languages.foldl (mergeLang fd env)
            { counter := 0, gc := initialContent fd featuredImage
              requests :=
                if fd.imageSettings.featuredImage then
                  [Request.imageSearch (imageQuery fd)]
                else [] }).gc)
        finalState := .complete
        finalProgress := { state := .complete, completedLanguages := fd.languages }
        requests := (fd.languages.foldl (mergeLang fd env)
            { counter := 0, gc := initialContent fd featuredImage
              requests :=
                if fd.imageSettings.featuredImage then
                  [Request.imageSearch (imageQuery fd)]
                else [] }).requests } := by
  unfold generate
  rw [if_neg hval]
  simp only [himg]

/-! ## C2: validation failure -/

/-- C2: with an empty topic or an empty language list, `generate` throws
the validation error, ends in the error state, and issues no network
request at all. -/
theorem generate_validation_no_requests (fd : GenerationFormData) (env : Env)
    (h : fd.topic = "" ∨ fd.languages = []) :
    (generate fd env).result =
      .error "Topic and at least one language are required" ∧
    (generate fd env).finalState = .error ∧
    (generate fd env).requests = [] := by
  unfold generate
  rw [if_pos h]
  exact ⟨rfl, rfl, rfl⟩

theorem generate_validation_no_requests_witness :
    (generate { fdFixture with topic := "" } envRoFails).result =
      .error "Topic and at least one language are required" ∧
    (generate { fdFixture with topic := "" } envRoFails).finalState = .error ∧
    (generate { fdFixture with topic := "" } envRoFails).requests = [] :=
  generate_validation_no_requests { fdFixture with topic := "" } envRoFails
    (Or.inl rfl)

/-! ## More loop lemmas (tags and the image phase) -/

theorem image_phase_ok (fd : GenerationFormData) (env : Env)
    (himg : fd.imageSettings.featuredImage = true → env.imageSearch.isThrown = false) :
    ∃ fi, (if fd.imageSettings.featuredImage then
        match env.imageSearch with
        | .thrown msg => Except.error msg
        | .httpError => Except.ok none
        | .ok body => Except.ok body.results.head?
      else Except.ok (none : Option UnsplashImage)) = Except.ok fi := by
  by_cases hset : fd.imageSettings.featuredImage = true
  · rw [if_pos hset]
    cases hsearch : env.imageSearch with
    | thrown m =>
      have := himg hset
      rw [hsearch] at this
      simp [FetchOutcome.isThrown] at this
    | httpError => exact ⟨none, rfl⟩
    | ok body => exact ⟨body.results.head?, rfl⟩
  · rw [if_neg hset]
    exact ⟨none, rfl⟩

theorem mergeLang_tags_of_counter_pos (fd : GenerationFormData) (env : Env)
    (st : LoopState) (lang : Lang) (h : 1 ≤ st.counter) :
    (mergeLang fd env st lang).gc.tags = st.gc.tags := by
  unfold mergeLang
  cases env.genResponse lang with
  | thrown m => rfl
  | httpError => rfl
  | ok lc =>
    show (if st.counter + 1 = 1 then mergeTags st.gc.tags lc.tags else st.gc.tags)
      = st.gc.tags
    rw [if_neg (by omega)]

theorem loop_tags_stable (fd : GenerationFormData) (env : Env) :
    ∀ (langs : List Lang) (st : LoopState), 1 ≤ st.counter →
      (langs.foldl (mergeLang fd env) st).gc.tags = st.gc.tags := by
  intro langs
  induction langs with
  | nil => intro st _; rfl
  | cons lang langs ih =>
    intro st h
    simp only [List.foldl_cons]
    rw [ih _ (by rw [mergeLang_counter]; omega),
      mergeLang_tags_of_counter_pos fd env st lang h]

theorem mergeLang_tags_first (fd : GenerationFormData) (env : Env)
    (st : LoopState) (lang : Lang) (h : st.counter = 0) :
    (mergeLang fd env st lang).gc.tags =
      (match env.genResponse lang with
       | .ok lc => mergeTags st.gc.tags lc.tags
       | _ => st.gc.tags) := by
  unfold mergeLang
  cases env.genResponse lang with
  | thrown m => rfl
  | httpError => rfl
  | ok lc =>
    show (if st.counter + 1 = 1 then mergeTags st.gc.tags lc.tags else st.gc.tags)
      = mergeTags st.gc.tags lc.tags
    rw [if_pos (by omega)]

theorem formatContentForSanity_title_mem (gc : GeneratedContent) (l : Lang)
    (v : String) :
    (l, v) ∈ (formatContentForSanity gc).title → (l, v) ∈ gc.title := by
  intro h
  replace h : (l, v) ∈ (allLanguages.foldl (formatLangStep gc)
      { title := [], excerpt := [], content := []
        seo := gc.seo.map fun _ => { metaTitle := [], metaDescription := [] }
        tags := gc.tags }).title := h
  rcases fc_title_mem gc allLanguages _ l v h with h1 | h2
  · exact absurd h1 (by simp)
  · exact h2

theorem formatContentForSanity_excerpt_mem (gc : GeneratedContent) (l : Lang)
    (v : String) :
    (l, v) ∈ (formatContentForSanity gc).excerpt → (l, v) ∈ gc.excerpt := by
  intro h
  replace h : (l, v) ∈ (allLanguages.foldl (formatLangStep gc)
      { title := [], excerpt := [], content := []
        seo := gc.seo.map fun _ => { metaTitle := [], metaDescription := [] }
        tags := gc.tags }).excerpt := h
  rcases fc_excerpt_mem gc allLanguages _ l v h with h1 | h2
  · exact absurd h1 (by simp)
  · exact h2

theorem formatContentForSanity_content_mem (gc : GeneratedContent) (l : Lang)
    (bs : List PortableBlock) :
    (l, bs) ∈ (formatContentForSanity gc).content →
    ∃ cv, (l, cv) ∈ gc.content := by
  intro h
  replace h : (l, bs) ∈ (allLanguages.foldl (formatLangStep gc)
      { title := [], excerpt := [], content := []
        seo := gc.seo.map fun _ => { metaTitle := [], metaDescription := [] }
        tags := gc.tags }).content := h
  rcases fc_content_mem gc allLanguages _ l bs h with h1 | h2
  · exact absurd h1 (by simp)
  · exact h2

/-! ## C1: partial per-language failure still completes -/

/-- C1: with a non-empty topic and language list, and an image phase that
does not throw, a run in which at least one language's generation request
fails still returns a payload, ends in the complete state, reports the
whole requested language list as `completedLanguages`, and the localized
title/excerpt/content carry entries only for requested languages whose
request succeeded. -/
theorem generate_partial_failure (fd : GenerationFormData) (env : Env)
    (htopic : ¬ fd.topic = "") (hlang : ¬ fd.languages = [])
    (himg : fd.imageSettings.featuredImage = true → env.imageSearch.isThrown = false)
    (_hfail : ∃ l, l ∈ fd.languages ∧ (env.genResponse l).isOk = false) :
    ∃ d, (generate fd env).result = .ok d ∧
      (generate fd env).finalState = .complete ∧
      (generate fd env).finalProgress.completedLanguages = fd.languages ∧
      (∀ l v, (l, v) ∈ d.title →
        l ∈ fd.languages ∧ (env.genResponse l).isOk = true) ∧
      (∀ l v, (l, v) ∈ d.excerpt →
        l ∈ fd.languages ∧ (env.genResponse l).isOk = true) ∧
      (∀ l bs, (l, bs) ∈ d.content →
        l ∈ fd.languages ∧ (env.genResponse l).isOk = true) := by
  obtain ⟨fi, hfi⟩ := image_phase_ok fd env himg
  rw [generate_ok_eq fd env fi (not_or.mpr ⟨htopic, hlang⟩) hfi]
  refine ⟨_, rfl, rfl, rfl, ?_, ?_, ?_⟩
  · intro l v hv
    replace hv : (l, v) ∈ (formatContentForSanity
        (fd.languages.foldl (mergeLang fd env)
          { counter := 0, gc := initialContent fd fi
            requests :=
              if fd.imageSettings.featuredImage then
                [Request.imageSearch (imageQuery fd)]
              else [] }).gc).title := hv
    have h2 := formatContentForSanity_title_mem _ l v hv
    rcases loop_title_mem fd env fd.languages _ l v h2 with h3 | h4
    · exact absurd h3 (by simp [initialContent])
    · exact h4
  · intro l v hv
    replace hv : (l, v) ∈ (formatContentForSanity
        (fd.languages.foldl (mergeLang fd env)
          { counter := 0, gc := initialContent fd fi
            requests :=
              if fd.imageSettings.featuredImage then
                [Request.imageSearch (imageQuery fd)]
              else [] }).gc).excerpt := hv
    have h2 := formatContentForSanity_excerpt_mem _ l v hv
    rcases loop_excerpt_mem fd env fd.languages _ l v h2 with h3 | h4
    · exact absurd h3 (by simp [initialContent])
    · exact h4
  · intro l bs hv
    replace hv : (l, bs) ∈ (formatContentForSanity
        (fd.languages.foldl (mergeLang fd env)
          { counter := 0, gc := initialContent fd fi
            requests :=
              if fd.imageSettings.featuredImage then
                [Request.imageSearch (imageQuery fd)]
              else [] }).gc).content := hv
    obtain ⟨cv, h2⟩ := formatContentForSanity_content_mem _ l bs hv
    rcases loop_content_mem fd env fd.languages _ l cv h2 with h3 | h4
    · exact absurd h3 (by simp [initialContent])
    · exact h4

theorem generate_partial_failure_witness :
    ∃ d, (generate fdFixture envRoFails).result = .ok d ∧
      (generate fdFixture envRoFails).finalState = .complete ∧
      (generate fdFixture envRoFails).finalProgress.completedLanguages =
        fdFixture.languages ∧
      (∀ l v, (l, v) ∈ d.title →
        l ∈ fdFixture.languages ∧ (envRoFails.genResponse l).isOk = true) ∧
      (∀ l v, (l, v) ∈ d.excerpt →
        l ∈ fdFixture.languages ∧ (envRoFails.genResponse l).isOk = true) ∧
      (∀ l bs, (l, bs) ∈ d.content →
        l ∈ fdFixture.languages ∧ (envRoFails.genResponse l).isOk = true) :=
  generate_partial_failure fdFixture envRoFails (by decide) (by decide)
    (by decide) ⟨.ro, by decide, by decide⟩

/-! ## C3: which language supplies the merged tags -/

/-- C3 counterexample: the first requested language (ro) fails while the
second (en) succeeds and returns the tag "a"; the run completes, yet the
payload's tags are only the caller keyword — the tags of the first
successfully completed language are never merged. -/
theorem generate_tags_counterexample :
    (envRoFails.genResponse Lang.ro).isOk = false ∧
    envRoFails.genResponse Lang.en = .ok lcEnFixture ∧
    lcEnFixture.tags = some ["a"] ∧
    (generate fdFixture envRoFails).finalState = .complete ∧
    resultTags (generate fdFixture envRoFails) = ["k"] ∧
    ¬ "a" ∈ resultTags (generate fdFixture envRoFails) := by
  decide

/-- C3 amended: the payload's tags merge the caller keywords with the tags
of the first language in the requested order — and only when that very
language's request succeeds and returns a tag array; when it fails, the
tags are the caller keywords unchanged even if later languages succeed. -/
theorem generate_tags_from_first_requested (fd : GenerationFormData) (env : Env)
    (htopic : ¬ fd.topic = "") (hlang : ¬ fd.languages = [])
    (himg : fd.imageSettings.featuredImage = true → env.imageSearch.isThrown = false) :
    ∃ d, (generate fd env).result = .ok d ∧
      d.tags = (match fd.languages.head? with
        | some l0 =>
          match env.genResponse l0 with
          | .ok lc => mergeTags fd.keywords lc.tags
          | _ => fd.keywords
        | none => fd.keywords) := by
  obtain ⟨fi, hfi⟩ := image_phase_ok fd env himg
  rw [generate_ok_eq fd env fi (not_or.mpr ⟨htopic, hlang⟩) hfi]
  refine ⟨_, rfl, ?_⟩
  show (fd.languages.foldl (mergeLang fd env)
      { counter := 0, gc := initialContent fd fi
        requests :=
          if fd.imageSettings.featuredImage then
            [Request.imageSearch (imageQuery fd)]
          else [] }).gc.tags = _
  cases hl : fd.languages with
  | nil => exact absurd hl hlang
  | cons l0 rest =>
    simp only [List.foldl_cons, List.head?_cons]
    rw [loop_tags_stable fd env rest _ (by simp [mergeLang_counter]),
      mergeLang_tags_first fd env _ l0 rfl]
    cases env.genResponse l0 <;> rfl

theorem generate_tags_from_first_requested_witness :
    ∃ d, (generate fdFixture envRoFails).result = .ok d ∧
      d.tags = (match fdFixture.languages.head? with
        | some l0 =>
          match envRoFails.genResponse l0 with
          | .ok lc => mergeTags fdFixture.keywords lc.tags
          | _ => fdFixture.keywords
        | none => fdFixture.keywords) :=
  generate_tags_from_first_requested fdFixture envRoFails (by decide) (by decide)
    (by decide)

/-! ## C7: featured-image search failures -/

/-- C7 counterexample: with the featured-image setting on, a thrown
image-search fetch is fatal — the run ends in the error state and throws,
rather than proceeding without a featured image. -/
theorem generate_image_thrown_counterexample :
    fdImgFixture.imageSettings.featuredImage = true ∧
    envImgThrows.imageSearch.isThrown = true ∧
    (generate fdImgFixture envImgThrows).finalState = GenState.error ∧
    resultIsOk (generate fdImgFixture envImgThrows) = false := by
  decide

/-- C7 amended: with the featured-image setting on, the search is queried
with `imageKeywords` or, when that is blank, the topic; a non-ok search
response or an empty result list is non-fatal — the run completes without
a featured image; only a thrown fetch aborts the run. -/
theorem generate_image_failure_nonfatal (fd : GenerationFormData) (env : Env)
    (htopic : ¬ fd.topic = "") (hlang : ¬ fd.languages = [])
    (hset : fd.imageSettings.featuredImage = true)
    (hsearch : env.imageSearch = .httpError ∨
      ∃ body, env.imageSearch = .ok body ∧ body.results = []) :
    (generate fd env).requests.head? =
      some (Request.imageSearch
        (if fd.imageSettings.imageKeywords = "" then fd.topic
         else fd.imageSettings.imageKeywords)) ∧
    (generate fd env).finalState = .complete ∧
    ∃ d, (generate fd env).result = .ok d ∧ d.featuredImage = none := by
  have hfi : (if fd.imageSettings.featuredImage then
      match env.imageSearch with
      | .thrown msg => Except.error msg
      | .httpError => Except.ok none
      | .ok body => Except.ok body.results.head?
    else Except.ok (none : Option UnsplashImage))
      = Except.ok (none : Option UnsplashImage) := by
    rw [if_pos hset]
    rcases hsearch with h | ⟨body, h, hres⟩
    · rw [h]
    · rw [h]
      show Except.ok body.results.head? = Except.ok none
      simp [hres]
  rw [generate_ok_eq fd env none (not_or.mpr ⟨htopic, hlang⟩) hfi]
  refine ⟨?_, rfl, _, rfl, ?_⟩
  · rw [loop_requests]
    simp [hset, imageQuery]
  · rfl

theorem generate_image_failure_nonfatal_witness :
    (generate fdImgFixture envRoFails).requests.head? =
      some (Request.imageSearch
        (if fdImgFixture.imageSettings.imageKeywords = "" then fdImgFixture.topic
         else fdImgFixture.imageSettings.imageKeywords)) ∧
    (generate fdImgFixture envRoFails).finalState = .complete ∧
    ∃ d, (generate fdImgFixture envRoFails).result = .ok d ∧
      d.featuredImage = none :=
  generate_image_failure_nonfatal fdImgFixture envRoFails (by decide) (by decide)
    (by decide) (Or.inl (by decide))

/-! ## C9: the secrets cache -/

/-- C9: (i) with caching enabled, a cache entry for the resolved
(project id, qualified name) key whose timestamp is less than five minutes
old is returned as-is and no remote `accessSecretVersion` call is issued —
the cache is consulted before any network traffic; (ii) with
`useCache := false` the cache content influences neither the returned
value nor the remote calls; (iii) a successful remote fetch under caching
stores the fetched value at that key with the current time, which is what
makes a repeat call within five minutes hit case (i). -/
theorem getSecret_cache_spec :
    (∀ (secretName : String) (opts : GetSecretOptions) (senv : SecretsEnv)
        (cache : List (String × CachedSecret)) (cached : CachedSecret),
      opts.useCache = true →
      assocGet cache (cacheKeyOf secretName opts senv) = some cached →
      senv.now - cached.timestamp < cacheTimeout →
      getSecret secretName opts senv cache =
        { result := some cached.value, cache := cache, remoteCalls := [] }) ∧
    (∀ (secretName : String) (opts : GetSecretOptions) (senv : SecretsEnv)
        (cache1 cache2 : List (String × CachedSecret)),
      opts.useCache = false →
      (getSecret secretName opts senv cache1).result =
        (getSecret secretName opts senv cache2).result ∧
      (getSecret secretName opts senv cache1).remoteCalls =
        (getSecret secretName opts senv cache2).remoteCalls) ∧
    (∀ (secretName : String) (opts : GetSecretOptions) (senv : SecretsEnv)
        (cache : List (String × CachedSecret)) (v : String),
      opts.useCache = true →
      assocGet cache (cacheKeyOf secretName opts senv) = none →
      ¬ (senv.environment = .development ∧ truthyStr (senv.envVars secretName) = true) →
      senv.remote (resourceNameOf secretName opts senv) = some v →
      getSecret secretName opts senv cache =
        { result := some v
          cache := assocSet cache (cacheKeyOf secretName opts senv)
            { value := v, timestamp := senv.now }
          remoteCalls := [resourceNameOf secretName opts senv] }) := by
  have lookup_fresh : ∀ (opts : GetSecretOptions) (senv : SecretsEnv)
      (cache : List (String × CachedSecret)) (key : String)
      (cached : CachedSecret),
      opts.useCache = true → assocGet cache key = some cached →
      senv.now - cached.timestamp < cacheTimeout →
      cachedLookup opts senv cache key = some cached := by
    intro opts senv cache key cached huse hget hfresh
    unfold cachedLookup
    rw [huse, hget]
    show (if senv.now - cached.timestamp < cacheTimeout then some cached else none)
      = some cached
    rw [if_pos hfresh]
  have lookup_nocache : ∀ (opts : GetSecretOptions) (senv : SecretsEnv)
      (cache : List (String × CachedSecret)) (key : String),
      opts.useCache = false → cachedLookup opts senv cache key = none := by
    intro opts senv cache key huse
    unfold cachedLookup
    rw [huse]
    rfl
  have lookup_miss : ∀ (opts : GetSecretOptions) (senv : SecretsEnv)
      (cache : List (String × CachedSecret)) (key : String),
      opts.useCache = true → assocGet cache key = none →
      cachedLookup opts senv cache key = none := by
    intro opts senv cache key huse hget
    unfold cachedLookup
    rw [huse, hget]
    rfl
  have dev_none : ∀ (senv : SecretsEnv) (secretName : String),
      ¬ (senv.environment = .development ∧
        truthyStr (senv.envVars secretName) = true) →
      devOverrideOf senv secretName = none := by
    intro senv secretName hdev
    unfold devOverrideOf
    by_cases he : senv.environment = Environment.development
    · rw [if_pos he]
      cases hv : senv.envVars secretName with
      | none => rfl
      | some w =>
        show (if w = "" then none else some w) = none
        by_cases hw : w = ""
        · rw [if_pos hw]
        · exact absurd ⟨he, by simp [truthyStr, hv, hw]⟩ hdev
    · rw [if_neg he]
  refine ⟨?_, ?_, ?_⟩
  · intro secretName opts senv cache cached huse hget hfresh
    unfold getSecret
    simp only
    rw [lookup_fresh opts senv cache _ cached huse hget hfresh]
  · intro secretName opts senv cache1 cache2 huse
    unfold getSecret
    simp only
    rw [lookup_nocache opts senv cache1 _ huse,
      lookup_nocache opts senv cache2 _ huse]
    cases hdev : devOverrideOf senv secretName with
    | some v => exact ⟨rfl, rfl⟩
    | none =>
      cases hr : senv.remote (resourceNameOf secretName opts senv) with
      | some value => exact ⟨rfl, rfl⟩
      | none => exact ⟨rfl, rfl⟩
  · intro secretName opts senv cache v huse hget hdev hr
    unfold getSecret
    simp only
    rw [lookup_miss opts senv cache _ huse hget, dev_none senv secretName hdev, hr,
      huse]
    rfl

theorem getSecret_cache_spec_witness :
    getSecret "SANITY_API_TOKEN" {} senvFixture cacheFixture =
      { result := some "cached-value", cache := cacheFixture, remoteCalls := [] } ∧
    (getSecret "SANITY_API_TOKEN" { useCache := false } senvFixture
        cacheFixture).result =
      (getSecret "SANITY_API_TOKEN" { useCache := false } senvFixture []).result :=
  ⟨getSecret_cache_spec.1 "SANITY_API_TOKEN" {} senvFixture cacheFixture
      { value := "cached-value", timestamp := 100000 } rfl (by decide) (by decide),
   (getSecret_cache_spec.2.1 "SANITY_API_TOKEN" { useCache := false } senvFixture
      cacheFixture [] rfl).1⟩

end Lupito
